import Mathlib

set_option maxHeartbeats 1000000

set_option maxRecDepth 100000

/-
Verification development for the Azure DevOps wiki inventorizer
(`main.py`).  The pagination/stitching pipeline
(`create_most_visited_json`), the view-count aggregation and ranked
rendering (`create_most_visited_md`), and the new-articles miner
(`create_new_articles_md`) are embedded shallowly: strings are
`List Char`, Python builtins (`str.find`, `str.rfind`, `str.replace`,
slicing) are modelled exactly, including negative-index normalization,
and the module-level globals become an explicit state record threaded
through the loop.
-/

-- ===== Character constants =====

def nlC : Char := '\n'

def crC : Char := '\r'

def tabC : Char := '\t'

def commaC : Char := ','

def qC : Char := '"'

def bsC : Char := '\\'

def lbkC : Char := '['

def rbkC : Char := ']'

def lbrC : Char := '\x7b'

def rbrC : Char := '\x7d'

def colonC : Char := ':'

def slashC : Char := '/'

def pipeC : Char := '|'

def starC : Char := '*'

def hyphenC : Char := '-'

def spaceC : Char := ' '

-- ===== Python string builtins, modelled on List Char =====

/--
Model of Python `s.find(pat)` scanning for the first occurrence of
`pat`; returns the index wrapped in `some`, or `none` when absent.
-/
def pyFindAux (pat : List Char) : List Char → Option Nat
  | [] => if pat.isPrefixOf [] then some 0 else none
  | c :: rest =>
    if pat.isPrefixOf (c :: rest) then some 0
    else (pyFindAux pat rest).map (fun i => i + 1)

/-- Python `s.find(pat)`: first index of `pat` in `s`, or `-1`. -/
def pyFind (s pat : List Char) : Int :=
  match pyFindAux pat s with
  | some i => (i : Int)
  | none => -1

/-- Python `pat in s` (and `s.find(pat) >= 0`). -/
def containsSubstr (s pat : List Char) : Bool := (pyFindAux pat s).isSome

/--
Worker for Python `s.replace(pat, rep)`: scans left to right; on a
match it emits `rep` and then skips the remaining `pat.length - 1`
matched characters (counter argument), giving the non-overlapping
replacement Python performs.  (Python's special behaviour for an empty
`pat` is not modelled; every pattern in the source is non-empty.)
-/
def pyRepGo (pat rep : List Char) : List Char → Nat → List Char
  | [], _ => []
  | _ :: cs, Nat.succ k => pyRepGo pat rep cs k
  | c :: cs, 0 =>
    if pat ≠ [] ∧ pat.isPrefixOf (c :: cs) then
      rep ++ pyRepGo pat rep cs (pat.length - 1)
    else c :: pyRepGo pat rep cs 0

/-- Python `s.replace(pat, rep)`. -/
def pyReplace (s pat rep : List Char) : List Char := pyRepGo pat rep s 0

/-- Highest index of `c` in `s`, if any. -/
def lastIdxOf (s : List Char) (c : Char) : Option Nat :=
  match s with
  | [] => none
  | x :: xs =>
    match lastIdxOf xs c with
    | some i => some (i + 1)
    | none => if x = c then some 0 else none

/--
Python slice-index normalization against a length `n`: a negative
index counts from the end (clamped at 0), a non-negative one is
clamped at `n`.
-/
def pyNormIdx (n : Nat) (i : Int) : Nat :=
  if i < 0 then ((n : Int) + i).toNat else min i.toNat n

/--
Python `s.rfind(c, start, len(s))`: highest index `i ≥ norm(start)`
with `s[i] = c`, else `-1`.  (The source only calls `rfind` with the
end argument equal to `len(s)`.)
-/
def pyRFindFrom (s : List Char) (c : Char) (start : Int) : Int :=
  let b := pyNormIdx s.length start
  match lastIdxOf (s.drop b) c with
  | some i => ((b + i : Nat) : Int)
  | none => -1

/-- Python `s[:stop]`. -/
def pySliceUpto (s : List Char) (stop : Int) : List Char :=
  s.take (pyNormIdx s.length stop)

/-- Python `s[start:-1]`. -/
def pySliceFromDropLast (s : List Char) (start : Int) : List Char :=
  (s.take (s.length - 1)).drop (pyNormIdx s.length start)

/-- Characters that survive `stripNl`. -/
def notNl (c : Char) : Bool := ! (c == nlC)

/--
Deletes every newline character.  The stitching loop inserts newlines
only outside JSON string literals (and `JVal.render` escapes newlines
inside string literals), so a JSON parser accepts `s` as an array of
certain elements exactly when `stripNl s` is the canonical rendering
of that array.
-/
def stripNl (s : List Char) : List Char := s.filter notNl

-- ===== Decimal digits (used by JSON rendering and f-strings) =====

def digitChar (n : Nat) : Char := Char.ofNat (48 + n)

def natDigitsGo : Nat → Nat → List Char
  | 0, _ => []
  | fuel + 1, n =>
    if n < 10 then [digitChar n]
    else natDigitsGo fuel (n / 10) ++ [digitChar (n % 10)]

/-- Decimal rendering of a natural number. -/
def natDigits (n : Nat) : List Char := natDigitsGo (n + 1) n

/-- Decimal rendering of an integer. -/
def renderInt (n : Int) : List Char :=
  if n < 0 then hyphenC :: natDigits n.natAbs else natDigits n.natAbs

-- ===== JSON values (model of the API payloads) =====

mutual
inductive JVal where
  | jnull : JVal
  | jbool (flag : Bool) : JVal
  | jnum (n : Int) : JVal
  | jstr (chars : List Char) : JVal
  | jarr (items : JSeq) : JVal
  | jobj (fields : JMems) : JVal
inductive JSeq where
  | nil : JSeq
  | cons (v : JVal) (rest : JSeq) : JSeq
inductive JMems where
  | nil : JMems
  | cons (k : List Char) (v : JVal) (rest : JMems) : JMems
end

/-- JSON string-character escaping (as `json.dumps` escapes them). -/
def escChar (c : Char) : List Char :=
  if c = qC then [bsC, qC]
  else if c = bsC then [bsC, bsC]
  else if c = nlC then [bsC, 'n']
  else if c = tabC then [bsC, 't']
  else if c = crC then [bsC, 'r']
  else [c]

def escStr (s : List Char) : List Char := s.flatMap escChar

def litNull : List Char := "null".data

def litTrue : List Char := "true".data

def litFalse : List Char := "false".data

mutual
/-- Canonical compact rendering of a JSON value. -/
def JVal.render : JVal → List Char
  | .jnull => litNull
  | .jbool true => litTrue
  | .jbool false => litFalse
  | .jnum n => renderInt n
  | .jstr s => qC :: escStr s ++ [qC]
  | .jarr es => lbkC :: JVal.renderSeq es ++ [rbkC]
  | .jobj ms => lbrC :: JVal.renderMems ms ++ [rbrC]
def JVal.renderSeq : JSeq → List Char
  | .nil => []
  | .cons v .nil => v.render
  | .cons v rest => v.render ++ commaC :: JVal.renderSeq rest
def JVal.renderMems : JMems → List Char
  | .nil => []
  | .cons k v .nil => qC :: escStr k ++ [qC, colonC] ++ v.render
  | .cons k v rest =>
    qC :: escStr k ++ [qC, colonC] ++ v.render ++ commaC :: JVal.renderMems rest
end

/-- Comma-joined renderings of a list of JSON values. -/
def JVal.renderList : List JVal → List Char
  | [] => []
  | [v] => v.render
  | v :: rest => v.render ++ commaC :: JVal.renderList rest

/-- Canonical rendering of the JSON array holding the given elements. -/
def renderArray (es : List JVal) : List Char :=
  lbkC :: JVal.renderList es ++ [rbkC]

-- ===== Pagination / stitching model (create_most_visited_json) =====

/-- A continuation token is the integer 1 initially, then header strings. -/
inductive ContTok where
  | int (n : Int) : ContTok
  | str (s : List Char) : ContTok
deriving DecidableEq

/--
The module-level globals of `main.py` (lines 16-20):
`continuation_token`, `result_json`, `batch_number`,
`has_more_results` (`current_batch_result_json` is recomputed from
scratch every iteration and is kept local in `stepBatch`).
-/
structure StitchSt where
  continuation_token : ContTok
  result_json : List Char
  batch_number : Nat
  has_more_results : Bool
deriving DecidableEq

/-- Initial values of the globals at import time. -/
def initStitchSt : StitchSt := ⟨ .int 1, [], 0, false ⟩

/-- An HTTP response: status code, optional continuation header, body. -/
structure HttpResp where
  status : Nat
  contToken : Option (List Char)
  body : List Char
deriving DecidableEq

def valueMarker : List Char := "\"value\":".data

def sepS : List Char := "\n\n,\n\n".data

/--
One continuation-carrying iteration of the `while True` loop
(lines 178-201): bump `batch_number`, record the header token, locate
`"value":` with `str.find`, slice `[(index+8):-1]`, then for the first
batch drop the trailing bracket (slice `[:len-1]`) and for later
batches drop both brackets (slice `[1:-1]`), append the separator, and
accumulate into `result_json`.
-/
def stepBatch (st : StitchSt) (body : List Char) (tok : List Char) : StitchSt :=
  let bn := st.batch_number + 1
  let idx := pyFind body valueMarker
  let cur := pySliceFromDropLast body (idx + (valueMarker.length : Int))
  let frag :=
    if bn = 1 then pySliceUpto cur ((cur.length : Int) - 1) ++ sepS
    else pySliceFromDropLast cur 1 ++ sepS
  ⟨ .str tok, st.result_json ++ frag, bn, true ⟩

/-- How the response loop can end. -/
inductive RunOutcome where
  | finished (st : StitchSt) : RunOutcome
  | authExit (st : StitchSt) : RunOutcome
  | apiErrorExit (status : Nat) (st : StitchSt) : RunOutcome
  | outOfResponses (st : StitchSt) : RunOutcome
deriving DecidableEq

/--
The response loop of `create_most_visited_json` (lines 167-209),
mirroring the `if status != 401 / elif status == 401 / else` chain
exactly — including the unreachable final `else` (API error) branch.
A response without the continuation header breaks out of the loop
without its body ever being read.
-/
def runLoop : List HttpResp → StitchSt → RunOutcome
  | [], st => .outOfResponses st
  | r :: rs, st =>
    if r.status ≠ 401 then
      match r.contToken with
      | some tok => runLoop rs (stepBatch st r.body tok)
      | none => .finished ⟨ st.continuation_token, st.result_json, st.batch_number, false ⟩
    else if r.status = 401 then .authExit st
    else .apiErrorExit r.status st

/--
Finalization (lines 212-213): `rfind(',', len - 50, len)` on the
accumulated buffer, cut there, append `]`.
-/
def finalizeJVal (buf : List Char) : List Char :=
  let idx := pyRFindFrom buf commaC ((buf.length : Int) - 50)
  pySliceUpto buf idx ++ [rbkC]

/--
`create_most_visited_json` as a function of the response sequence and
the incoming globals: `some (fileText, globalsAfter)` when the loop
breaks normally, `none` when the run aborts via `exit(1)`.
-/
def createMostVisitedJVal (resps : List HttpResp) (st : StitchSt) :
    Option (List Char × StitchSt) :=
  match runLoop resps st with
  | .finished stF => some (finalizeJVal stF.result_json, stF)
  | _ => none

def bodyPre : List Char := "\x7b\"value\":".data

/--
Modelled from the spec: each pagination response body is a JSON object
wrapping the batch under the `value` key (the claims' own scenario
payload shape).
-/
def mkBody (arrText : List Char) : List Char := bodyPre ++ arrText ++ [rbrC]

/-- A 2xx response carrying a continuation token and a `value` batch. -/
def mkResp (t : List Char) (b : List JVal) : HttpResp :=
  ⟨ 200, some t, mkBody (renderArray b) ⟩

/-- The final 2xx response: no continuation header. -/
def lastResp (b : List Char) : HttpResp := ⟨ 200, none, b ⟩

/-- The responses of a full paginated exchange. -/
def batchResponses (t : List Char) (bs : List (List JVal)) (fin : List Char) :
    List HttpResp :=
  bs.map (mkResp t) ++ [lastResp fin]

/-- The spliced fragment a single batch contributes to the buffer. -/
def fragOf (first : Bool) (b : List JVal) : List Char :=
  (if first then lbkC :: JVal.renderList b else JVal.renderList b) ++ sepS

/-- Fragments of the batches after the first processed one. -/
def fragsTail : List (List JVal) → List Char
  | [] => []
  | b :: bs => fragOf false b ++ fragsTail bs

/-- Fragments contributed by `bs` when `batch_number` starts at `k`. -/
def fragsAll (k : Nat) : List (List JVal) → List Char
  | [] => []
  | b :: bs => fragOf (k = 0) b ++ fragsTail bs

/-- Buffer contents between consecutive separator insertions. -/
def innerJoin : List (List JVal) → List Char
  | [] => []
  | [b] => JVal.renderList b
  | b :: bs => JVal.renderList b ++ sepS ++ innerJoin bs

/-- Folding the batch step over a list of batches. -/
def foldBatches (t : List Char) (bs : List (List JVal)) (st : StitchSt) : StitchSt :=
  bs.foldl (fun s b => stepBatch s (mkBody (renderArray b)) t) st

-- ===== Request body (_create_api_call_definitions) =====

/-- The dict serialized into the POST data (line 114). -/
structure PostBody where
  pageViewsForDays : Int
  continuationToken : ContTok
deriving DecidableEq

/--
`_create_api_call_definitions` (lines 105-119): the request dict is
built with the literal 30 for `pageViewsForDays` and the global
continuation token; no days argument exists.
-/
def createApiCallDefinitions (continuation_token : ContTok) : PostBody :=
  ⟨ 30, continuation_token ⟩

-- ===== Transport-exception handler (lines 208-209) =====

/-- A Python value as far as `str.__add__` is concerned. -/
inductive PyVal where
  | pstr (s : List Char) : PyVal
  | pexc (cls msg : List Char) : PyVal
deriving DecidableEq

def typeErrorStrConcat : List Char :=
  "TypeError: can only concatenate str to str".data

/--
Python `+` on a str and another value: defined for str + str, raises
`TypeError` when the right operand is not a str (an exception object
in particular).
-/
def pyStrAdd : PyVal → PyVal → Except (List Char) PyVal
  | .pstr a, .pstr b => .ok (.pstr (a ++ b))
  | _, _ => .error typeErrorStrConcat

def errorPre : List Char := "Error: ".data

/--
The `except Exception as e: print("Error: " + e)` clause: if the
concatenation succeeds the loop silently continues with the state
unchanged (`.ok st`); if it raises, the new exception propagates out
of the handler and the run dies there (`.error`), the state still
unchanged at the point of the crash.
-/
def exceptClause (st : StitchSt) (e : PyVal) :
    Except (List Char × StitchSt) StitchSt :=
  match pyStrAdd (.pstr errorPre) e with
  | .ok _ => .ok st
  | .error m => .error (m, st)

def connErrName : List Char := "ConnectionError".data

def connErrMsg : List Char := "connection refused".data

def connectionRefusedExc : PyVal := .pexc connErrName connErrMsg

-- ===== Aggregation (create_most_visited_md, lines 362-386) =====

structure ViewStat where
  count : Int
  day : List Char
deriving DecidableEq

/-- A parsed element of the most-visited JSON array. -/
structure PageRecord where
  id : Int
  path : List Char
  viewStats : Option (List ViewStat)
deriving DecidableEq

structure PageDetailWithStats where
  id : Int
  path : List Char
  viewStats : List ViewStat
deriving DecidableEq

structure AggPage where
  id : Int
  path : List Char
  viewCountTotal : Int
deriving DecidableEq

/--
First loop (lines 366-374): keep a record only when the `viewStats`
key is present and `str(viewStats) != '[]'` (i.e. the list is
non-empty).
-/
def removePagesWithoutViewStats : List PageRecord → List PageDetailWithStats
  | [] => []
  | item :: rest =>
    match item.viewStats with
    | some vs =>
      if vs = [] then removePagesWithoutViewStats rest
      else ⟨ item.id, item.path, vs ⟩ :: removePagesWithoutViewStats rest
    | none => removePagesWithoutViewStats rest

/-- Inner loop of lines 381-384: `tmp_count += int(item2['count'])`. -/
def sumViewCounts (vs : List ViewStat) : Int :=
  vs.foldl (fun acc v => acc + v.count) 0

/-- Second loop (lines 377-386). -/
def computeTotals (items : List PageDetailWithStats) : List AggPage :=
  items.map fun it => ⟨ it.id, it.path, sumViewCounts it.viewStats ⟩

/-- The whole aggregation stage of `create_most_visited_md`. -/
def aggregatePages (records : List PageRecord) : List AggPage :=
  computeTotals (removePagesWithoutViewStats records)

-- ===== Ranking (lines 389-401) =====

/-- `_sortByViewCountTotal` (line 341). -/
def sortByViewCountTotal (e : AggPage) : Int := e.viewCountTotal

/-- Comparison realized by `sort(reverse=True, key=_sortByViewCountTotal)`. -/
def viewCountGE (a b : AggPage) : Prop :=
  sortByViewCountTotal b ≤ sortByViewCountTotal a

instance : DecidableRel viewCountGE := fun a b =>
  inferInstanceAs (Decidable (sortByViewCountTotal b ≤ sortByViewCountTotal a))

instance : IsTotal AggPage viewCountGE :=
  ⟨ fun a b => Int.le_total (sortByViewCountTotal b) (sortByViewCountTotal a) ⟩

instance : IsTrans AggPage viewCountGE :=
  ⟨ fun _ _ _ h1 h2 => le_trans h2 h1 ⟩

/--
Python `list.sort(reverse=True, key=_sortByViewCountTotal)`: a stable
sort, descending in the key.  Embedded as the stable insertion sort
with the same ordering; sortedness, permutation and stability are
proved below, which pins the embedding (a stable sort is unique).
-/
def pySortDesc (l : List AggPage) : List AggPage :=
  List.insertionSort viewCountGE l

/--
The emission loop of lines 398-401: `tmp_count` starts at 1 and a row
is emitted only while `tmp_count <= number_of_items`, the counter
advancing only on emission.
-/
def emitTopRows (n : Int) : List AggPage → Int → List AggPage
  | [], _ => []
  | p :: ps, c => if c ≤ n then p :: emitTopRows n ps (c + 1) else emitTopRows n ps c

/-- Pages whose rows `create_most_visited_md` renders, in order. -/
def renderTopPages (pages : List AggPage) (n : Int) : List AggPage :=
  emitTopRows n (pySortDesc pages) 1

-- ===== Path escaping (lines 403-421) =====

def hyphenS : List Char := [hyphenC]

def spaceS : List Char := [spaceC]

def pipeS : List Char := [pipeC]

def starS : List Char := [starC]

def colonS : List Char := [colonC]

def nlS : List Char := [nlC]

def pct2D : List Char := "%2D".data

def pct7C : List Char := "%7C".data

def pct2A : List Char := "%2A".data

def pct3A : List Char := "%3A".data

/--
The link-target escaping of lines 403-421: drop the first character,
then `-` to `%2D`, space to `-`, `|` to `%7C` (line 414), then the
three guarded replacements `*` to `%2A`, `|` to `%7C` (again) and `:`
to `%3A`.
-/
def escapeLinkPath (path : List Char) : List Char :=
  let t0 := path.drop 1
  let t1 := pyReplace t0 hyphenS pct2D
  let t2 := pyReplace t1 spaceS hyphenS
  let t3 := pyReplace t2 pipeS pct7C
  let t4 := if containsSubstr t3 starS then pyReplace t3 starS pct2A else t3
  let t5 := if containsSubstr t4 pipeS then pyReplace t4 pipeS pct7C else t4
  if containsSubstr t5 colonS then pyReplace t5 colonS pct3A else t5

/--
The link-text variant (lines 409-413): drop the first character and
escape only `|` as `%7C`.
-/
def escapeDisplayName (path : List Char) : List Char :=
  pyReplace (path.drop 1) pipeS pct7C

/-- Modelled from the spec: strip one leading path separator. -/
def specStrip (path : List Char) : List Char :=
  match path with
  | c :: rest => if c = slashC then rest else c :: rest
  | [] => []

/--
Modelled from the spec: the claimed escaping chain — strip one leading
slash, then `-`→`%2D`, space→`-`, `|`→`%7C`, `*`→`%2A`, `:`→`%3A`, in
that order, each unconditional.
-/
def escapeLinkSpec (path : List Char) : List Char :=
  let t1 := pyReplace (specStrip path) hyphenS pct2D
  let t2 := pyReplace t1 spaceS hyphenS
  let t3 := pyReplace t2 pipeS pct7C
  let t4 := pyReplace t3 starS pct2A
  pyReplace t4 colonS pct3A

/--
Modelled from the spec: the display variant is the stripped original
path with only `|` escaped.
-/
def escapeDisplaySpec (path : List Char) : List Char :=
  pyReplace (specStrip path) pipeS pct7C

-- ===== Article miner (create_new_articles_md, lines 299-333) =====

structure ArticleRow where
  linkText : List Char
  linkPath : List Char
  author : List Char
  date : List Char
deriving DecidableEq

/--
The loop state of the emission pass: the scratch author/date fields,
the accumulating Markdown text (whose content the duplicate check at
line 315 consults), the `articles` dedup list, the emitted rows, and
the row counter.
-/
structure MinerSt where
  current_author : List Char
  current_date : List Char
  resulting_md : List Char
  articles : List (List Char)
  rows : List ArticleRow
  current_number_of_items : Nat
deriving DecidableEq

def initMinerSt (header : List Char) : MinerSt := ⟨ [], [], header, [], [], 0 ⟩

def itemAuthorTag : List Char := "#ItemAuthor#".data

def itemDateTag : List Char := "#ItemDate#".data

def rowP1 : List Char := "| [".data

def rowP2 : List Char := "](".data

def rowP3 : List Char := ") |".data

def barS : List Char := "|".data

def barbarS : List Char := "||".data

/-- The Markdown row appended at lines 325-328. -/
def rowText (link mdPage author date : List Char) : List Char :=
  rowP1 ++ link ++ rowP2 ++ mdPage ++ rowP3 ++ author ++ barS ++ date ++ nlS

def maxItemsLastUpdated : Nat := 2000

/--
The emission pass over the git-log lines (lines 304-333).  Each line
is already newline-stripped (the loop's `replace('\n','')` calls are
retained and are no-ops on such lines).  Filename lines are skipped
when empty, when `[` + name-with-hyphens + `]` already occurs in the
Markdown accumulated so far, when the output path occurs in them, or
when the name was already emitted (`articles`); emission appends to
`articles`, to the Markdown and to `rows`, and the loop breaks once
the counter reaches `maxRows`.
-/
def mineLines (excl : List Char) (maxRows : Nat) :
    List (List Char) → MinerSt → MinerSt
  | [], st => st
  | line :: rest, st =>
    if itemAuthorTag.isPrefixOf line then
      mineLines excl maxRows rest
        ⟨ pyReplace (pyReplace line itemAuthorTag []) nlS [], st.current_date,
          st.resulting_md, st.articles, st.rows, st.current_number_of_items ⟩
    else if itemDateTag.isPrefixOf line then
      mineLines excl maxRows rest
        ⟨ st.current_author, pyReplace (pyReplace line itemDateTag []) nlS [],
          st.resulting_md, st.articles, st.rows, st.current_number_of_items ⟩
    else
      let page := pyReplace line nlS []
      let mdPage := pyReplace page spaceS hyphenS
      if page ≠ [] ∧ containsSubstr st.resulting_md (lbkC :: mdPage ++ [rbkC]) = false ∧
          containsSubstr page excl = false then
        let link := pyReplace (pyReplace (pyReplace mdPage hyphenS spaceS) pct2D hyphenS)
          pct3A colonS
        if mdPage ∈ st.articles then mineLines excl maxRows rest st
        else
          let st2 : MinerSt :=
            ⟨ st.current_author, st.current_date,
              st.resulting_md ++ rowText link mdPage st.current_author st.current_date,
              st.articles ++ [mdPage],
              st.rows ++ [⟨ link, mdPage, st.current_author, st.current_date ⟩],
              st.current_number_of_items + 1 ⟩
          if st2.current_number_of_items = maxRows then st2
          else mineLines excl maxRows rest st2
      else mineLines excl maxRows rest st

def hdr1 : List Char := "Last ".data

def hdr2 : List Char := " pages added to wiki, as of <b> ".data

def hdr3 : List Char := " UTC : </b> \n\n".data

def hdr4 : List Char := " | <b>Page</b> | <b>Author</b> | <b>Date</b> | \n".data

def hdr5 : List Char := " | ---- | ------ | ---- | \n".data

/-- The Markdown header built at lines 291-293. -/
def newArticlesHeader (days : Nat) (now : List Char) : List Char :=
  hdr1 ++ natDigits days ++ hdr2 ++ now ++ hdr3 ++ hdr4 ++ hdr5

/-- The whole emission pass of `create_new_articles_md`. -/
def createNewArticlesRun (excl header : List Char) (lines : List (List Char)) : MinerSt :=
  mineLines excl maxItemsLastUpdated lines (initMinerSt header)

/-- The final file text, after the `replace('||', '|')` of line 335. -/
def createNewArticlesMdText (excl header : List Char) (lines : List (List Char)) :
    List Char :=
  pyReplace (createNewArticlesRun excl header lines).resulting_md barbarS barS

-- ===== Concrete inputs used by scenario theorems =====

def idKey : List Char := "id".data

def pathKey : List Char := "path".data

def slashA : List Char := "/A".data

def slashB : List Char := "/B".data

/-- The element of the claims' scenario batch. -/
def objA : JVal := .jobj (.cons idKey (.jnum 1) (.cons pathKey (.jstr slashA) .nil))

def objB : JVal := .jobj (.cons idKey (.jnum 2) (.cons pathKey (.jstr slashB) .nil))

def tokT : List Char := "token2".data

/-- The stitched text the C1 scenario claims. -/
def claimedSingleBatchOut : List Char := "[\x7b\"id\":1,\"path\":\"/A\"\x7d]".data

/-- A body with no `"value":` marker. -/
def badBody7 : List Char := "\x7b\"count\":0\x7d".data

/-- The buffer the marker-less body produces: `":` plus the separator. -/
def corrupt7Buf : List Char := "\":\n\n,\n\n".data

/-- The corrupted file text then written. -/
def corrupt7Out : List Char := "\":\n\n]".data

def pathMyPage : List Char := "/My-Page Title".data

def resMyPage : List Char := "My%2DPage-Title".data

def pathAB : List Char := "A|B".data

def resAB : List Char := "A%7CB".data

def resBadAB : List Char := "%7CB".data

def pathTen : List Char := "/Ten".data

def pathTwenty : List Char := "/Twenty".data

def pageTen : AggPage := ⟨ 1, pathTen, 10 ⟩

def pageTwenty : AggPage := ⟨ 2, pathTwenty, 20 ⟩

def pageEqA : AggPage := ⟨ 1, pathTen, 5 ⟩

def pageEqB : AggPage := ⟨ 2, pathTwenty, 5 ⟩

def nowC6 : List Char := "Mon Oct 6 12:00:00 2025".data

def exclC6 : List Char := "/w/repo/Articles-created-in-the-past-30-days.md".data

def lineAuthorAlice : List Char := "#ItemAuthor#Alice".data

def lineDateOne : List Char := "#ItemDate#01/01/25 10:00:00".data

def lineFooSpace : List Char := "Foo Bar.md".data

def lineAuthorBob : List Char := "#ItemAuthor#Bob".data

def lineDateTwo : List Char := "#ItemDate#01/02/25 10:00:00".data

def lineFooHyphen : List Char := "Foo-Bar.md".data

/-- The C6 scenario: `Foo Bar.md` first, `Foo-Bar.md` later. -/
def scenarioLines : List (List Char) :=
  [ lineAuthorAlice, lineDateOne, lineFooSpace, [],
    lineAuthorBob, lineDateTwo, lineFooHyphen ]

def aliceS : List Char := "Alice".data

def dateOneS : List Char := "01/01/25 10:00:00".data

/-- The single row the C6 scenario must produce. -/
def fooBarRow : ArticleRow := ⟨ lineFooSpace, lineFooHyphen, aliceS, dateOneS ⟩

-- ===== Helper lemmas: Python replace on single-character patterns =====

theorem isPrefixOf_append_self (l t : List Char) : l.isPrefixOf (l ++ t) = true := by
  induction l with
  | nil => simp [List.isPrefixOf]
  | cons c cs ih => simp [List.isPrefixOf, ih]

theorem pyFindAux_self_append (pat t : List Char) : pyFindAux pat (pat ++ t) = some 0 := by
  cases pat with
  | nil =>
    cases t with
    | nil => simp [pyFindAux, List.isPrefixOf]
    | cons c cs => simp [pyFindAux, List.isPrefixOf]
  | cons c cs => simp [pyFindAux, isPrefixOf_append_self]

theorem isPrefixOf_cons_ne (a b : Char) (as bs : List Char) (h : (a == b) = false) :
    (a :: as).isPrefixOf (b :: bs) = false := by
  simp [List.isPrefixOf, h]

theorem isPrefixOf_single (c x : Char) (xs : List Char) :
    [c].isPrefixOf (x :: xs) = (c == x) := by
  simp [List.isPrefixOf]

theorem pyReplace_single (c : Char) (rep : List Char) (s : List Char) :
    pyReplace s [c] rep = s.flatMap (fun x => if x = c then rep else [x]) := by
  induction s with
  | nil => rfl
  | cons x xs ih =>
    by_cases h : c = x
    · subst h
      have hcond : ([c] ≠ ([] : List Char)) ∧ [c].isPrefixOf (c :: xs) = true := by
        refine ⟨ by simp, ?_ ⟩
        simp [List.isPrefixOf]
      simp only [pyReplace, pyRepGo, hcond, and_self, if_pos, List.flatMap_cons]
      simp only [pyReplace] at ih
      simp [ih]
    · have hcond : ¬ (([c] ≠ ([] : List Char)) ∧ [c].isPrefixOf (x :: xs) = true) := by
        intro hc
        rcases hc with ⟨ _, hp ⟩
        rw [isPrefixOf_single] at hp
        exact h (by simpa using hp)
      simp only [pyReplace, pyRepGo, hcond, if_neg, not_false_eq_true, List.flatMap_cons]
      simp only [pyReplace] at ih
      simp [ih, h, Ne.symm h]

theorem mem_pyReplace_single (c y : Char) (rep s : List Char)
    (h : y ∈ pyReplace s [c] rep) : y ∈ rep ∨ (y ∈ s ∧ y ≠ c) := by
  rw [pyReplace_single] at h
  rw [List.mem_flatMap] at h
  rcases h with ⟨ a, ha, hy ⟩
  by_cases hac : a = c
  · subst hac
    simp at hy
    exact Or.inl hy
  · simp [hac] at hy
    subst hy
    exact Or.inr ⟨ ha, hac ⟩

theorem pyReplace_single_of_not_mem (c : Char) (rep s : List Char) (h : c ∉ s) :
    pyReplace s [c] rep = s := by
  rw [pyReplace_single]
  induction s with
  | nil => rfl
  | cons x xs ih =>
    have hx : x ≠ c := by
      intro he
      exact h (he ▸ List.mem_cons_self x xs)
    have hxs : c ∉ xs := fun hm => h (List.mem_cons_of_mem _ hm)
    simp [hx, ih hxs]

theorem not_mem_pyReplace_single (c : Char) (rep s : List Char) (h : c ∉ rep) :
    c ∉ pyReplace s [c] rep := by
  intro hm
  rcases mem_pyReplace_single c c rep s hm with h1 | h2
  · exact h h1
  · exact h2.2 rfl

theorem containsSubstr_single_iff (s : List Char) (c : Char) :
    containsSubstr s [c] = true ↔ c ∈ s := by
  induction s with
  | nil => simp [containsSubstr, pyFindAux, List.isPrefixOf]
  | cons x xs ih =>
    by_cases h : c = x
    · subst h
      simp [containsSubstr, pyFindAux, List.isPrefixOf]
    · have hne : ([c]).isPrefixOf (x :: xs) = false := by
        rw [isPrefixOf_single]
        simpa using h
      have hstep : containsSubstr (x :: xs) [c] = containsSubstr xs [c] := by
        simp [containsSubstr, pyFindAux, hne, Option.isSome_map]
      rw [hstep, ih, List.mem_cons]
      constructor
      · intro hm
        exact Or.inr hm
      · intro hor
        rcases hor with he | hm
        · exact absurd he h
        · exact hm

theorem cond_pyReplace_single (t : List Char) (c : Char) (rep : List Char) :
    (if containsSubstr t [c] then pyReplace t [c] rep else t) = pyReplace t [c] rep := by
  by_cases h : containsSubstr t [c] = true
  · simp [h]
  · have hnm : c ∉ t := by
      intro hm
      exact h ((containsSubstr_single_iff t c).mpr hm)
    simp [h, pyReplace_single_of_not_mem c rep t hnm]

-- ===== Claim theorems: request body (C8) =====

/--
Claim C8 as stated is false: the POST body's `pageViewsForDays` is the
hard-coded literal 30, so for a requested days window of 7 the body
does not carry 7.
-/
theorem c8_counterexample : (createApiCallDefinitions (ContTok.int 1)).pageViewsForDays ≠ 7 := by
  decide

/--
Claim C8 (amended): every pagination POST body carries
`pageViewsForDays = 30`, independent of the requested days window —
`_create_api_call_definitions` takes no days argument at all.
-/
theorem c8_amended (tok : ContTok) : (createApiCallDefinitions tok).pageViewsForDays = 30 := rfl

-- ===== Claim theorems: transport exceptions (C9) =====

/--
Claim C9 as stated is false: on a transport-level exception the
handler `print("Error: " + e)` does not silently retry — concatenating
a str with the exception object raises `TypeError`, which the handler
does not catch, so the run crashes at that iteration.
-/
theorem c9_counterexample :
    exceptClause initStitchSt connectionRefusedExc =
      Except.error (typeErrorStrConcat, initStitchSt) ∧
    exceptClause initStitchSt connectionRefusedExc ≠ Except.ok initStitchSt := by
  constructor
  · rfl
  · intro h
    simp [exceptClause, pyStrAdd, connectionRefusedExc] at h

/--
Claim C9 (amended): for every transport-level exception object, the
except clause raises an uncaught `TypeError` (aborting the run instead
of retrying); the accumulated buffer and pagination state are
unchanged at the point of the crash.
-/
theorem c9_amended (st : StitchSt) (cls msg : List Char) :
    exceptClause st (.pexc cls msg) = Except.error (typeErrorStrConcat, st) := rfl

-- ===== Claim theorems: status-code dispatch (C2) =====

/--
Claim C2: the 401 half holds (immediate abort), but the
`ApiError{status}` branch of `create_most_visited_json` is unreachable
dead code — `if status != 401 / elif status == 401 / else` exhausts
all cases before the `else` — so a non-401 non-2xx response (e.g. 500)
is processed down the success path: here a 500 response without a
continuation header simply ends the loop and the file is written.
-/
theorem c2_api_error_unreachable :
    (∀ (rs : List HttpResp) (st : StitchSt) (c : Nat) (stf : StitchSt),
        runLoop rs st ≠ RunOutcome.apiErrorExit c stf) ∧
    (∀ (tok : Option (List Char)) (body : List Char) (rs : List HttpResp) (st : StitchSt),
        runLoop (⟨ 401, tok, body ⟩ :: rs) st = RunOutcome.authExit st) ∧
    createMostVisitedJVal [⟨ 500, none, [] ⟩] initStitchSt = some ([rbkC], initStitchSt) := by
  refine ⟨ ?_, ?_, ?_ ⟩
  · intro rs
    induction rs with
    | nil => intro st c stf h; simp [runLoop] at h
    | cons r rs ih =>
      intro st c stf h
      simp only [runLoop] at h
      by_cases h401 : r.status = 401
      · simp [h401] at h
      · simp only [h401, ne_eq, not_false_eq_true, if_pos, if_true] at h
        cases htok : r.contToken with
        | some tok =>
          rw [htok] at h
          exact ih _ c stf h
        | none =>
          rw [htok] at h
          simp at h
  · intro tok body rs st
    simp [runLoop]
  · rfl

-- ===== Claim theorems: aggregation (C3) =====

theorem foldl_add_counts (vs : List ViewStat) (a : Int) :
    vs.foldl (fun acc v => acc + v.count) a = a + (vs.map ViewStat.count).sum := by
  induction vs generalizing a with
  | nil => simp
  | cons v vs ih =>
    simp only [List.foldl_cons, List.map_cons, List.sum_cons]
    rw [ih]
    ring

theorem sumViewCounts_eq (vs : List ViewStat) :
    sumViewCounts vs = (vs.map ViewStat.count).sum := by
  simpa [sumViewCounts] using foldl_add_counts vs 0

/--
Claim C3: aggregation keeps exactly the records whose `viewStats` is
present and non-empty, and each retained record's `viewCountTotal` is
the exact integer sum of the `count` fields of its `viewStats`.
-/
theorem c3_aggregate_filter_sum (records : List PageRecord) :
    aggregatePages records =
      (records.filter fun r =>
          decide (r.viewStats ≠ none ∧ r.viewStats ≠ some [])).map
        (fun r => ⟨ r.id, r.path, ((r.viewStats.getD []).map ViewStat.count).sum ⟩) := by
  induction records with
  | nil => rfl
  | cons r rs ih =>
    cases hvs : r.viewStats with
    | none =>
      simp only [aggregatePages, removePagesWithoutViewStats, computeTotals] at *
      rw [hvs]
      simpa [List.filter_cons, hvs] using ih
    | some vs =>
      cases vs with
      | nil =>
        simp only [aggregatePages, removePagesWithoutViewStats, computeTotals] at *
        rw [hvs]
        simpa [List.filter_cons, hvs] using ih
      | cons v vtail =>
        simp only [aggregatePages, removePagesWithoutViewStats, computeTotals] at ih ⊢
        rw [hvs]
        simp [List.filter_cons, hvs, sumViewCounts_eq] at ih ⊢
        exact ih

-- ===== Claim theorems: path escaping (C5) =====

/--
Claim C5 as stated is false at the bare path `A|B`: the code strips
the first character unconditionally (`path[1:]`), so `A|B` yields
`%7CB`, not the claimed `A%7CB` (which is what the spec's
strip-a-leading-separator chain produces).
-/
theorem c5_counterexample :
    escapeLinkPath pathAB = resBadAB ∧ escapeLinkSpec pathAB = resAB ∧
    escapeLinkPath pathAB ≠ escapeLinkSpec pathAB := by
  refine ⟨ by decide, by decide, by decide ⟩

theorem c5_link_eq (t0 : List Char) :
    escapeLinkPath (slashC :: t0) = escapeLinkSpec (slashC :: t0) := by
  have hstrip : specStrip (slashC :: t0) = t0 := by simp [specStrip]
  simp only [escapeLinkPath, escapeLinkSpec, hstrip, List.drop_succ_cons, List.drop_zero,
    hyphenS, spaceS, pipeS, starS, colonS]
  set t3 := pyReplace (pyReplace (pyReplace t0 [hyphenC] pct2D) [spaceC] [hyphenC])
    [pipeC] pct7C with ht3
  have hpipe3 : pipeC ∉ t3 := by
    rw [ht3]
    exact not_mem_pyReplace_single pipeC pct7C _ (by decide)
  rw [cond_pyReplace_single t3 starC pct2A]
  set t4 := pyReplace t3 [starC] pct2A with ht4
  have hpipe4 : pipeC ∉ t4 := by
    intro hm
    rw [ht4] at hm
    rcases mem_pyReplace_single starC pipeC pct2A t3 hm with h1 | h2
    · revert h1
      decide
    · exact hpipe3 h2.1
  have hc4 : containsSubstr t4 [pipeC] = false := by
    rcases Bool.eq_false_or_eq_true (containsSubstr t4 [pipeC]) with hf | htr
    · exact absurd ((containsSubstr_single_iff t4 pipeC).mp hf) hpipe4
    · exact htr
  rw [hc4]
  simp only [Bool.false_eq_true, if_false]
  rw [cond_pyReplace_single t4 colonC pct3A]

/--
Claim C5 (amended): for paths that do start with `/` — as all wiki
paths delivered by the API do — the code's escaping equals the
claimed fixed-order chain (strip the slash, `-`→`%2D`, space→`-`,
`|`→`%7C`, `*`→`%2A`, `:`→`%3A`), and likewise for the display
variant (strip plus `|`→`%7C` only); in particular `/My-Page Title`
yields `My%2DPage-Title` and `/A|B` yields `A%7CB`.  On a path
without a leading slash the code instead deletes the path's first
character (see the counterexample).
-/
theorem c5_escaping_amended (t0 : List Char) :
    escapeLinkPath (slashC :: t0) = escapeLinkSpec (slashC :: t0) ∧
    escapeDisplayName (slashC :: t0) = escapeDisplaySpec (slashC :: t0) ∧
    escapeLinkPath pathMyPage = resMyPage ∧
    escapeLinkPath (slashC :: pathAB) = resAB := by
  refine ⟨ c5_link_eq t0, ?_, by decide, by decide ⟩
  simp [escapeDisplayName, escapeDisplaySpec, specStrip]

-- ===== Claim theorems: ranking and truncation (C4) =====

theorem emitTopRows_eq_take (n : Int) :
    ∀ (l : List AggPage) (c : Int), emitTopRows n l c = l.take (n - c + 1).toNat := by
  intro l
  induction l with
  | nil => intro c; simp [emitTopRows]
  | cons p ps ih =>
    intro c
    by_cases h : c ≤ n
    · have ht : (n - c + 1).toNat = (n - (c + 1) + 1).toNat + 1 := by omega
      simp only [emitTopRows, h, if_pos]
      rw [ih (c + 1), ht, List.take_succ_cons]
    · have ht : (n - c + 1).toNat = 0 := by omega
      simp only [emitTopRows, h, if_neg, not_false_eq_true]
      rw [ih c, ht]
      simp

theorem sublist_orderedInsert_mono (x : AggPage) (S : List AggPage) (l : List AggPage)
    (h : l.Sublist S) : l.Sublist (List.orderedInsert viewCountGE x S) :=
  h.trans (List.sublist_orderedInsert x S)

theorem orderedInsert_head_stable (x b : AggPage) (S : List AggPage)
    (hb : b ∈ S) (hle : viewCountGE x b) :
    [x, b].Sublist (List.orderedInsert viewCountGE x S) := by
  rw [List.orderedInsert_eq_take_drop]
  have hbd : b ∈ S.dropWhile (fun q => decide ¬ viewCountGE x q) := by
    have hsplit :
        S.takeWhile (fun q => decide ¬ viewCountGE x q) ++
          S.dropWhile (fun q => decide ¬ viewCountGE x q) = S :=
      List.takeWhile_append_dropWhile _ _
    have hb2 : b ∈ S.takeWhile (fun q => decide ¬ viewCountGE x q) ++
        S.dropWhile (fun q => decide ¬ viewCountGE x q) := by
      rw [hsplit]
      exact hb
    rcases List.mem_append.mp hb2 with h1 | h2
    · exfalso
      have hp := List.mem_takeWhile_imp h1
      simp only [decide_eq_true_eq] at hp
      exact hp hle
    · exact h2
  have h1 : ([x] : List AggPage).Sublist
      (S.takeWhile (fun q => decide ¬ viewCountGE x q) ++ [x]) :=
    List.sublist_append_right _ _
  have h2 : ([b] : List AggPage).Sublist
      (S.dropWhile (fun q => decide ¬ viewCountGE x q)) :=
    List.singleton_sublist.mpr hbd
  have h3 := List.Sublist.append h1 h2
  simpa using h3

theorem pySortDesc_stable (l : List AggPage) (a b : AggPage)
    (hab : [a, b].Sublist l) (hle : viewCountGE a b) :
    [a, b].Sublist (pySortDesc l) := by
  induction l with
  | nil => simp at hab
  | cons x xs ih =>
    have hsort : pySortDesc (x :: xs) =
        List.orderedInsert viewCountGE x (pySortDesc xs) := by
      simp [pySortDesc, List.insertionSort]
    rw [hsort]
    rcases List.sublist_cons_iff.mp hab with hs | ⟨ r, hr, hrs ⟩
    · exact sublist_orderedInsert_mono x (pySortDesc xs) _ (ih hs)
    · have ha : a = x := by
        have := congrArg (fun t => t.head?) hr
        simpa using this
      have hrb : r = [b] := by
        have := congrArg (fun t => t.tail) hr
        simpa using this.symm
      subst ha
      rw [hrb] at hrs
      have hbmem : b ∈ pySortDesc xs := by
        have hbx : b ∈ xs := List.singleton_sublist.mp hrs
        exact ((List.perm_insertionSort viewCountGE xs).mem_iff).mpr hbx
      exact orderedInsert_head_stable a b (pySortDesc xs) hbmem hle

/--
Claim C4: `create_most_visited_md` renders exactly the first `topN`
rows of the descending, stable sort of the aggregated pages (all of
them when fewer exist): the emitted list is the `topN`-prefix of
`pySortDesc pages`, which is a permutation of the input, is sorted
descending by `viewCountTotal`, and preserves the original relative
order of ties; with `topN = 1` and totals 10 and 20 only the 20-total
page appears, as the first data row.
-/
theorem c4_rank_and_truncate (pages : List AggPage) (topN : Int) :
    renderTopPages pages topN = (pySortDesc pages).take topN.toNat ∧
    (pySortDesc pages).Perm pages ∧
    List.Sorted viewCountGE (pySortDesc pages) ∧
    (∀ a b : AggPage, [a, b].Sublist pages → a.viewCountTotal = b.viewCountTotal →
        [a, b].Sublist (pySortDesc pages)) ∧
    renderTopPages [pageTen, pageTwenty] 1 = [pageTwenty] := by
  refine ⟨ ?_, List.perm_insertionSort _ pages, List.sorted_insertionSort _ pages, ?_, by decide ⟩
  · rw [renderTopPages, emitTopRows_eq_take]
    have h : topN - 1 + 1 = topN := by omega
    rw [h]
  · intro a b hab heq
    have hge : viewCountGE a b := by
      simp only [viewCountGE, sortByViewCountTotal, heq]
      exact le_refl _
    exact pySortDesc_stable pages a b hab hge

/--
Witness for C4: two pages with tied totals keep their original
relative order through the sort.
-/
theorem c4_witness :
    (pageEqA.viewCountTotal = pageEqB.viewCountTotal) ∧
    [pageEqA, pageEqB].Sublist (pySortDesc [pageEqA, pageEqB]) :=
  ⟨ rfl, (c4_rank_and_truncate [pageEqA, pageEqB] 0).2.2.2.1 pageEqA pageEqB
      (List.Sublist.refl _) rfl ⟩

-- ===== Claim theorems: article miner dedup (C6) =====

theorem mineLines_nodup_invariant (excl : List Char) (maxRows : Nat) :
    ∀ (lines : List (List Char)) (st : MinerSt),
      st.rows.map ArticleRow.linkPath = st.articles → st.articles.Nodup →
      ((mineLines excl maxRows lines st).rows.map ArticleRow.linkPath =
          (mineLines excl maxRows lines st).articles ∧
        (mineLines excl maxRows lines st).articles.Nodup) := by
  intro lines
  induction lines with
  | nil =>
    intro st h1 h2
    simp only [mineLines]
    exact ⟨ h1, h2 ⟩
  | cons line rest ih =>
    intro st h1 h2
    simp only [mineLines]
    split
    · exact ih _ h1 h2
    · split
      · exact ih _ h1 h2
      · split
        · split
          · exact ih _ h1 h2
          · next hmem =>
            split
            · refine ⟨ ?_, ?_ ⟩
              · simp [h1]
              · simp [List.nodup_append, h2, hmem]
            · refine ih _ ?_ ?_
              · simp [h1]
              · simp [List.nodup_append, h2, hmem]
        · exact ih _ h1 h2

/--
Claim C6: the miner never emits two rows with the same link path —
the emitted rows' link paths (each filename after the space-to-hyphen
substitution) are pairwise distinct, for every commit-log stream,
exclude path and header; and the scenario stream containing
`Foo Bar.md` and later `Foo-Bar.md` produces exactly one row, the one
for the first occurrence (author Alice, first date).
-/
theorem c6_no_duplicate_link_paths (excl header : List Char) (lines : List (List Char)) :
    ((createNewArticlesRun excl header lines).rows.map ArticleRow.linkPath).Nodup ∧
    (createNewArticlesRun exclC6 (newArticlesHeader 30 nowC6) scenarioLines).rows =
      [fooBarRow] := by
  constructor
  · have h := mineLines_nodup_invariant excl maxItemsLastUpdated lines (initMinerSt header)
      rfl List.nodup_nil
    rw [createNewArticlesRun, h.1]
    exact h.2
  · decide

-- ===== Stitching lemmas (towards C1, C7, C10) =====

theorem bodyPre_eq : bodyPre = lbrC :: valueMarker := by decide

theorem bodyPre_len : bodyPre.length = 9 := by decide

theorem valueMarker_len : valueMarker.length = 8 := by decide

theorem sepS_eq : sepS = [nlC, nlC, commaC, nlC, nlC] := by decide

theorem pyFindAux_cons (pat : List Char) (c : Char) (rest : List Char) :
    pyFindAux pat (c :: rest) =
      if pat.isPrefixOf (c :: rest) then some 0
      else (pyFindAux pat rest).map (fun i => i + 1) := rfl

theorem pyFindAux_mkBody (x : List Char) : pyFindAux valueMarker (mkBody x) = some 1 := by
  have h1 : mkBody x = lbrC :: (valueMarker ++ (x ++ [rbrC])) := by
    simp [mkBody, bodyPre_eq]
  rw [h1]
  have h2 : valueMarker.isPrefixOf (lbrC :: (valueMarker ++ (x ++ [rbrC]))) = false := by
    have hv : valueMarker = qC :: ('v' :: 'a' :: 'l' :: 'u' :: 'e' :: qC :: colonC :: []) := by
      decide
    rw [hv]
    exact isPrefixOf_cons_ne _ _ _ _ (by decide)
  rw [pyFindAux_cons, h2]
  simp only [Bool.false_eq_true, if_false]
  rw [pyFindAux_self_append]
  rfl

theorem pyFind_mkBody (x : List Char) : pyFind (mkBody x) valueMarker = 1 := by
  simp [pyFind, pyFindAux_mkBody]

theorem mkBody_len (x : List Char) : (mkBody x).length = x.length + 10 := by
  have hb := bodyPre_len
  simp [mkBody, List.length_append]
  omega

theorem slice_mkBody (x : List Char) : pySliceFromDropLast (mkBody x) 9 = x := by
  rw [pySliceFromDropLast]
  have hlen := mkBody_len x
  have h1 : (mkBody x).length - 1 = (bodyPre ++ x).length := by
    have hb := bodyPre_len
    simp [List.length_append, hlen]
    omega
  have h2 : (mkBody x).take ((mkBody x).length - 1) = bodyPre ++ x := by
    rw [h1]
    have hshape : mkBody x = (bodyPre ++ x) ++ [rbrC] := by
      simp [mkBody, List.append_assoc]
    rw [hshape, List.take_left]
  rw [h2]
  have h3 : pyNormIdx (mkBody x).length 9 = 9 := by
    rw [pyNormIdx, hlen]
    norm_num
    omega
  rw [h3]
  have h4 := bodyPre_len
  rw [← h4, List.drop_left]

theorem renderArray_len (b : List JVal) :
    (renderArray b).length = (JVal.renderList b).length + 2 := by
  simp [renderArray]

theorem sliceUpto_renderArray (b : List JVal) :
    pySliceUpto (renderArray b) (((renderArray b).length : Int) - 1) =
      lbkC :: JVal.renderList b := by
  rw [pySliceUpto]
  have hlen := renderArray_len b
  have h1 : pyNormIdx (renderArray b).length (((renderArray b).length : Int) - 1) =
      (renderArray b).length - 1 := by
    rw [pyNormIdx]
    split
    · omega
    · omega
  rw [h1]
  have h2 : renderArray b = (lbkC :: JVal.renderList b) ++ [rbkC] := by
    simp [renderArray]
  rw [h2]
  have h3 : ((lbkC :: JVal.renderList b) ++ [rbkC]).length - 1 =
      (lbkC :: JVal.renderList b).length := by
    simp [List.length_append]
  rw [h3, List.take_left]

theorem sliceFromDropLast_renderArray (b : List JVal) :
    pySliceFromDropLast (renderArray b) 1 = JVal.renderList b := by
  rw [pySliceFromDropLast]
  have hlen := renderArray_len b
  have h2 : renderArray b = (lbkC :: JVal.renderList b) ++ [rbkC] := by
    simp [renderArray]
  have h3 : (renderArray b).take ((renderArray b).length - 1) = lbkC :: JVal.renderList b := by
    rw [h2]
    have h4 : ((lbkC :: JVal.renderList b) ++ [rbkC]).length - 1 =
        (lbkC :: JVal.renderList b).length := by
      simp [List.length_append]
    rw [h4, List.take_left]
  rw [h3]
  have h5 : pyNormIdx (renderArray b).length 1 = 1 := by
    rw [pyNormIdx]
    norm_num
    omega
  rw [h5]
  rfl

theorem stepBatch_mkResp (st : StitchSt) (b : List JVal) (t : List Char) :
    stepBatch st (mkBody (renderArray b)) t =
      ⟨ .str t, st.result_json ++ fragOf (decide (st.batch_number = 0)) b,
        st.batch_number + 1, true ⟩ := by
  simp only [stepBatch, pyFind_mkBody, valueMarker_len]
  have h9 : (1 : Int) + ((8 : Nat) : Int) = 9 := by norm_num
  rw [h9, slice_mkBody]
  by_cases h0 : st.batch_number = 0
  · simp [h0, fragOf, sliceUpto_renderArray]
  · have h1 : ¬ (st.batch_number + 1 = 1) := by omega
    simp [h0, h1, fragOf, sliceFromDropLast_renderArray]

theorem foldBatches_nil (t : List Char) (st : StitchSt) : foldBatches t [] st = st := rfl

theorem foldBatches_cons (t : List Char) (b : List JVal) (bs : List (List JVal))
    (st : StitchSt) :
    foldBatches t (b :: bs) st =
      foldBatches t bs (stepBatch st (mkBody (renderArray b)) t) := rfl

theorem runLoop_batches (t fin : List Char) :
    ∀ (bs : List (List JVal)) (st : StitchSt),
      runLoop (batchResponses t bs fin) st =
        RunOutcome.finished ⟨ (foldBatches t bs st).continuation_token,
          (foldBatches t bs st).result_json, (foldBatches t bs st).batch_number, false ⟩ := by
  intro bs
  induction bs with
  | nil =>
    intro st
    simp [batchResponses, runLoop, lastResp, foldBatches_nil]
  | cons b bs ih =>
    intro st
    have hcons : batchResponses t (b :: bs) fin = mkResp t b :: batchResponses t bs fin := by
      simp [batchResponses]
    rw [hcons]
    have hstep : runLoop (mkResp t b :: batchResponses t bs fin) st =
        runLoop (batchResponses t bs fin) (stepBatch st (mkBody (renderArray b)) t) := by
      simp [runLoop, mkResp]
    rw [hstep, ih, foldBatches_cons]

theorem fragsAll_pos (k : Nat) (bs : List (List JVal)) (h : k ≠ 0) :
    fragsAll k bs = fragsTail bs := by
  cases bs with
  | nil => rfl
  | cons b bs => simp [fragsAll, fragsTail, fragOf, h]

theorem foldBatches_spec (t : List Char) :
    ∀ (bs : List (List JVal)) (st : StitchSt),
      (foldBatches t bs st).result_json = st.result_json ++ fragsAll st.batch_number bs ∧
      (foldBatches t bs st).batch_number = st.batch_number + bs.length := by
  intro bs
  induction bs with
  | nil =>
    intro st
    simp [foldBatches_nil, fragsAll]
  | cons b bs ih =>
    intro st
    rw [foldBatches_cons, stepBatch_mkResp]
    rcases ih ⟨ .str t, st.result_json ++ fragOf (decide (st.batch_number = 0)) b,
        st.batch_number + 1, true ⟩ with ⟨ h1, h2 ⟩
    constructor
    · rw [h1]
      show st.result_json ++ fragOf (decide (st.batch_number = 0)) b ++
          fragsAll (st.batch_number + 1) bs =
        st.result_json ++ fragsAll st.batch_number (b :: bs)
      rw [fragsAll_pos (st.batch_number + 1) bs (by omega), List.append_assoc]
      rfl
    · rw [h2]
      show st.batch_number + 1 + bs.length = st.batch_number + (b :: bs).length
      simp [List.length_cons]
      omega

theorem fragsTail_decomp : ∀ (bs : List (List JVal)), bs ≠ [] →
    fragsTail bs = innerJoin bs ++ sepS
  | [], h => absurd rfl h
  | [b], _ => by simp [fragsTail, fragOf, innerJoin]
  | b :: c :: rest, _ => by
    have ih := fragsTail_decomp (c :: rest) (by simp)
    show fragOf false b ++ fragsTail (c :: rest) = innerJoin (b :: c :: rest) ++ sepS
    rw [ih]
    show (JVal.renderList b ++ sepS) ++ (innerJoin (c :: rest) ++ sepS) =
      (JVal.renderList b ++ sepS ++ innerJoin (c :: rest)) ++ sepS
    simp [List.append_assoc]

theorem fragsAll_decomp (k : Nat) (bs : List (List JVal)) (h : bs ≠ []) :
    fragsAll k bs = (if k = 0 then [lbkC] else []) ++ (innerJoin bs ++ sepS) := by
  cases bs with
  | nil => exact absurd rfl h
  | cons b bs =>
    cases bs with
    | nil =>
      by_cases hk : k = 0 <;> simp [fragsAll, fragsTail, fragOf, innerJoin, hk]
    | cons c rest =>
      have ht := fragsTail_decomp (c :: rest) (by simp)
      by_cases hk : k = 0 <;>
        simp [fragsAll, fragOf, innerJoin, hk, ht, List.append_assoc]

theorem lastIdxOf_cons (x : Char) (xs : List Char) (c : Char) :
    lastIdxOf (x :: xs) c =
      match lastIdxOf xs c with
      | some i => some (i + 1)
      | none => if x = c then some 0 else none := rfl

theorem lastIdxOf_not_mem (c : Char) : ∀ (z : List Char), c ∉ z → lastIdxOf z c = none
  | [], _ => rfl
  | x :: xs, h => by
    have hx : ¬ (x = c) := fun he => h (he ▸ List.mem_cons_self x xs)
    rw [lastIdxOf_cons, lastIdxOf_not_mem c xs (fun hm => h (List.mem_cons_of_mem _ hm))]
    simp [hx]

theorem lastIdxOf_append_last (c : Char) (z : List Char) (hz : c ∉ z) :
    ∀ (y : List Char), lastIdxOf (y ++ c :: z) c = some y.length
  | [] => by
    rw [List.nil_append, lastIdxOf_cons, lastIdxOf_not_mem c z hz]
    simp
  | x :: y2 => by
    rw [List.cons_append, lastIdxOf_cons, lastIdxOf_append_last c z hz y2]
    simp

theorem pyRFindFrom_endsSep (A : List Char) :
    pyRFindFrom (A ++ sepS) commaC (((A ++ sepS).length : Int) - 50) =
      ((A.length + 2 : Nat) : Int) ∨
    pyNormIdx (A ++ sepS).length (((A ++ sepS).length : Int) - 50) > A.length + 2 := by
  by_cases hble : pyNormIdx (A ++ sepS).length (((A ++ sepS).length : Int) - 50) ≤ A.length + 2
  · left
    simp only [pyRFindFrom]
    generalize hb : pyNormIdx (A ++ sepS).length (((A ++ sepS).length : Int) - 50) = b
    rw [hb] at hble
    have hshape : A ++ sepS = (A ++ [nlC, nlC]) ++ (commaC :: [nlC, nlC]) := by
      rw [sepS_eq]
      simp
    have hdrop : (A ++ sepS).drop b = ((A ++ [nlC, nlC]).drop b) ++ commaC :: [nlC, nlC] := by
      rw [hshape, List.drop_append_eq_append_drop]
      have hz : b - (A ++ [nlC, nlC]).length = 0 := by
        simp [List.length_append]
        omega
      rw [hz]
      rfl
    rw [hdrop, lastIdxOf_append_last commaC [nlC, nlC] (by decide)]
    have hdl : ((A ++ [nlC, nlC]).drop b).length = A.length + 2 - b := by
      simp [List.length_drop, List.length_append]
    rw [hdl]
    have harith : b + (A.length + 2 - b) = A.length + 2 := by omega
    show ((b + (A.length + 2 - b) : Nat) : Int) = ((A.length + 2 : Nat) : Int)
    rw [harith]
  · right
    omega

theorem normIdx_window_le (A : List Char) (h48 : A.length + 5 ≠ 48) (h49 : A.length + 5 ≠ 49) :
    pyNormIdx (A ++ sepS).length (((A ++ sepS).length : Int) - 50) ≤ A.length + 2 := by
  have hlen : (A ++ sepS).length = A.length + 5 := by simp [sepS_eq]
  rw [pyNormIdx, hlen]
  split <;> omega

theorem finalizeJVal_endsSep (A : List Char) (h48 : A.length + 5 ≠ 48)
    (h49 : A.length + 5 ≠ 49) :
    finalizeJVal (A ++ sepS) = A ++ [nlC, nlC, rbkC] := by
  have hr := pyRFindFrom_endsSep A
  rcases hr with hr | hgt
  · simp only [finalizeJVal]
    rw [hr, pySliceUpto, pyNormIdx]
    have hlen : (A ++ sepS).length = A.length + 5 := by simp [sepS_eq]
    have hnot : ¬ (((A.length + 2 : Nat) : Int) < 0) := by omega
    rw [if_neg hnot]
    have h1 : min ((A.length + 2 : Nat) : Int).toNat (A ++ sepS).length = A.length + 2 := by
      rw [hlen]
      omega
    rw [h1]
    have hshape : A ++ sepS = (A ++ [nlC, nlC]) ++ (commaC :: [nlC, nlC]) := by
      rw [sepS_eq]
      simp
    rw [hshape]
    have h2 : A.length + 2 = (A ++ [nlC, nlC]).length := by simp
    rw [h2, List.take_left]
    simp
  · exact absurd (normIdx_window_le A h48 h49) (by omega)

theorem digitChar_bounded_ne_nl : ∀ d < 10, digitChar d ≠ nlC := by decide

theorem natDigitsGo_no_nl : ∀ (fuel n : Nat), nlC ∉ natDigitsGo fuel n := by
  intro fuel
  induction fuel with
  | zero =>
    intro n
    simp [natDigitsGo]
  | succ f ih =>
    intro n
    simp only [natDigitsGo]
    split
    · next h =>
      intro hm
      simp only [List.mem_singleton] at hm
      exact digitChar_bounded_ne_nl n h hm.symm
    · intro hm
      rcases List.mem_append.mp hm with h1 | h2
      · exact ih (n / 10) h1
      · simp only [List.mem_singleton] at h2
        exact digitChar_bounded_ne_nl (n % 10) (Nat.mod_lt n (by omega)) h2.symm

theorem natDigits_no_nl (n : Nat) : nlC ∉ natDigits n := natDigitsGo_no_nl (n + 1) n

theorem renderInt_no_nl (n : Int) : nlC ∉ renderInt n := by
  rw [renderInt]
  split
  · intro hm
    rcases List.mem_cons.mp hm with he | h2
    · exact absurd he (by decide)
    · exact natDigits_no_nl _ h2
  · exact natDigits_no_nl _

theorem escChar_no_nl (c : Char) : nlC ∉ escChar c := by
  rw [escChar]
  split_ifs with h1 h2 h3 h4 h5
  · decide
  · decide
  · decide
  · decide
  · decide
  · intro hm
    simp only [List.mem_singleton] at hm
    exact h3 hm.symm

theorem escStr_no_nl (s : List Char) : nlC ∉ escStr s := by
  intro hm
  rcases List.mem_flatMap.mp hm with ⟨ a, _, hma ⟩
  exact escChar_no_nl a hma

mutual
theorem render_no_nl : (v : JVal) → nlC ∉ JVal.render v
  | .jnull => by decide
  | .jbool true => by decide
  | .jbool false => by decide
  | .jnum n => by
    simpa [JVal.render] using renderInt_no_nl n
  | .jstr s => by
    simp only [JVal.render]
    intro hm
    rcases List.mem_cons.mp hm with he | hm2
    · exact absurd he (by decide)
    · rcases List.mem_append.mp hm2 with h3 | h4
      · exact escStr_no_nl s h3
      · simp only [List.mem_singleton] at h4
        exact absurd h4 (by decide)
  | .jarr es => by
    simp only [JVal.render]
    intro hm
    rcases List.mem_cons.mp hm with he | hm2
    · exact absurd he (by decide)
    · rcases List.mem_append.mp hm2 with h3 | h4
      · exact renderSeq_no_nl es h3
      · simp only [List.mem_singleton] at h4
        exact absurd h4 (by decide)
  | .jobj ms => by
    simp only [JVal.render]
    intro hm
    rcases List.mem_cons.mp hm with he | hm2
    · exact absurd he (by decide)
    · rcases List.mem_append.mp hm2 with h3 | h4
      · exact renderMems_no_nl ms h3
      · simp only [List.mem_singleton] at h4
        exact absurd h4 (by decide)
theorem renderSeq_no_nl : (es : JSeq) → nlC ∉ JVal.renderSeq es
  | .nil => by simp [JVal.renderSeq]
  | .cons v .nil => by
    simpa [JVal.renderSeq] using render_no_nl v
  | .cons v (.cons w rest) => by
    simp only [JVal.renderSeq]
    intro hm
    rcases List.mem_append.mp hm with h1 | h2
    · exact render_no_nl v h1
    · rcases List.mem_cons.mp h2 with he | h3
      · exact absurd he (by decide)
      · exact renderSeq_no_nl (.cons w rest) h3
theorem renderMems_no_nl : (ms : JMems) → nlC ∉ JVal.renderMems ms
  | .nil => by simp [JVal.renderMems]
  | .cons k v .nil => by
    simp only [JVal.renderMems]
    intro hm
    rcases List.mem_cons.mp hm with he | hm2
    · exact absurd he (by decide)
    · rcases List.mem_append.mp hm2 with h3 | h4
      · rcases List.mem_append.mp h3 with h5 | h6
        · exact escStr_no_nl k h5
        · exact absurd h6 (by decide)
      · exact render_no_nl v h4
  | .cons k v (.cons k2 v2 rest) => by
    simp only [JVal.renderMems]
    intro hm
    rcases List.mem_cons.mp hm with he | hm2
    · exact absurd he (by decide)
    · rcases List.mem_append.mp hm2 with h3 | h4
      · rcases List.mem_append.mp h3 with h5 | h6
        · rcases List.mem_append.mp h5 with h7 | h8
          · exact escStr_no_nl k h7
          · exact absurd h8 (by decide)
        · exact render_no_nl v h6
      · rcases List.mem_cons.mp h4 with he2 | h9
        · exact absurd he2 (by decide)
        · exact renderMems_no_nl (.cons k2 v2 rest) h9
end

theorem renderList_no_nl : (xs : List JVal) → nlC ∉ JVal.renderList xs
  | [] => by simp [JVal.renderList]
  | [v] => by simpa [JVal.renderList] using render_no_nl v
  | v :: w :: rest => by
    simp only [JVal.renderList]
    intro hm
    rcases List.mem_append.mp hm with h1 | h2
    · exact render_no_nl v h1
    · rcases List.mem_cons.mp h2 with he | h3
      · exact absurd he (by decide)
      · exact renderList_no_nl (w :: rest) h3

theorem renderList_append : ∀ (xs ys : List JVal), xs ≠ [] → ys ≠ [] →
    JVal.renderList (xs ++ ys) = JVal.renderList xs ++ commaC :: JVal.renderList ys
  | [], _, hx, _ => absurd rfl hx
  | [v], ys, _, hy => by
    cases ys with
    | nil => exact absurd rfl hy
    | cons w ws =>
      show JVal.renderList (v :: w :: ws) =
        JVal.renderList [v] ++ commaC :: JVal.renderList (w :: ws)
      simp [JVal.renderList]
  | v :: u :: us, ys, _, hy => by
    have ih := renderList_append (u :: us) ys (by simp) hy
    show JVal.renderList (v :: u :: (us ++ ys)) =
      JVal.renderList (v :: u :: us) ++ commaC :: JVal.renderList ys
    have h1 : JVal.renderList (v :: u :: (us ++ ys)) =
        v.render ++ commaC :: JVal.renderList (u :: (us ++ ys)) := rfl
    have h2 : JVal.renderList (v :: u :: us) =
        v.render ++ commaC :: JVal.renderList (u :: us) := rfl
    rw [h1, h2]
    have h3 : JVal.renderList (u :: (us ++ ys)) = JVal.renderList ((u :: us) ++ ys) := rfl
    rw [h3, ih]
    simp [List.append_assoc]

theorem stripNl_append (x y : List Char) : stripNl (x ++ y) = stripNl x ++ stripNl y := by
  simp [stripNl, List.filter_append]

theorem stripNl_sepS : stripNl sepS = [commaC] := by decide

theorem stripNl_of_no_nl (s : List Char) (h : nlC ∉ s) : stripNl s = s := by
  induction s with
  | nil => rfl
  | cons c cs ih =>
    have hc : ¬ (c = nlC) := fun he => h (by simp [he])
    have hcs : nlC ∉ cs := fun hm => h (List.mem_cons_of_mem _ hm)
    have ih2 := ih hcs
    simp only [stripNl, notNl, List.filter_cons] at ih2 ⊢
    simp [hc, ih2]

theorem stripNl_innerJoin : ∀ (bs : List (List JVal)), (∀ b ∈ bs, b ≠ []) → bs ≠ [] →
    stripNl (innerJoin bs) = JVal.renderList bs.flatten
  | [], _, h => absurd rfl h
  | [b], _, _ => by
    show stripNl (JVal.renderList b) = JVal.renderList [b].flatten
    rw [stripNl_of_no_nl _ (renderList_no_nl b)]
    simp
  | b :: c :: rest, hb, _ => by
    have ihnn : ∀ x ∈ (c :: rest), x ≠ [] := fun x hx => hb x (List.mem_cons_of_mem _ hx)
    have ih := stripNl_innerJoin (c :: rest) ihnn (by simp)
    show stripNl (JVal.renderList b ++ sepS ++ innerJoin (c :: rest)) = _
    rw [stripNl_append, stripNl_append, stripNl_sepS,
      stripNl_of_no_nl _ (renderList_no_nl b), ih]
    have hbne : b ≠ [] := hb b (List.mem_cons_self _ _)
    have hcne : c ≠ [] := hb c (by simp)
    have hfl : c ++ rest.flatten ≠ [] := by
      intro hx
      rcases List.append_eq_nil.mp hx with ⟨ hc2, _ ⟩
      exact hcne hc2
    have hflat : (b :: c :: rest).flatten = b ++ (c ++ rest.flatten) := by
      rw [List.flatten_cons, List.flatten_cons]
    have hflat2 : (c :: rest).flatten = c ++ rest.flatten := List.flatten_cons
    rw [hflat2, hflat, renderList_append b (c ++ rest.flatten) hbne hfl]
    simp [List.append_assoc]

-- ===== Claim theorems: batch stitching (C1) =====

/--
Claim C1 as stated is false: for the claim's own scenario — a single
batch `{"value":[{"id":1,"path":"/A"}]}` whose response carries no
continuation-token header — the loop breaks before reading the body
(the final batch's payload is never appended), and finalizing the
empty buffer writes the two-character text `]`, not the claimed
`[{"id":1,"path":"/A"}]` (nor valid JSON at all).
-/
theorem c1_counterexample :
    createMostVisitedJVal [lastResp (mkBody (renderArray [objA]))] initStitchSt =
      some ([rbkC], initStitchSt) ∧
    ([rbkC] : List Char) ≠ claimedSingleBatchOut := by
  exact ⟨ rfl, by decide ⟩

/--
Claim C1 (amended): only the batches whose responses carry a
continuation-token header are stitched; the final (header-less)
response's payload is dropped.  For every sequence of such batches —
provided there is at least one, every batch's `value` array is
non-empty, and the buffer length avoids the `rfind`-window boundary
values 48 and 49 — the finalized text is, up to the inserted newline
whitespace, exactly the canonical JSON rendering of the array holding
the concatenation of the header-carrying batches' elements, whose
element count is the sum of those batches' sizes.
-/
theorem c1_stitch_amended (bs : List (List JVal)) (t fin : List Char)
    (h0 : bs ≠ []) (h1 : ∀ b ∈ bs, b ≠ [])
    (h48 : (fragsAll 0 bs).length ≠ 48) (h49 : (fragsAll 0 bs).length ≠ 49) :
    (createMostVisitedJVal (batchResponses t bs fin) initStitchSt).map
        (fun p => stripNl p.fst) = some (renderArray bs.flatten) ∧
    bs.flatten.length = (bs.map List.length).sum := by
  refine ⟨ ?_, List.length_flatten bs ⟩
  have hCM : createMostVisitedJVal (batchResponses t bs fin) initStitchSt =
      some (finalizeJVal (foldBatches t bs initStitchSt).result_json,
        ⟨ (foldBatches t bs initStitchSt).continuation_token,
          (foldBatches t bs initStitchSt).result_json,
          (foldBatches t bs initStitchSt).batch_number, false ⟩) := by
    simp only [createMostVisitedJVal]
    rw [runLoop_batches]
  rw [hCM, Option.map_some']
  have hrj : (foldBatches t bs initStitchSt).result_json = fragsAll 0 bs := by
    have h := (foldBatches_spec t bs initStitchSt).1
    simpa [initStitchSt] using h
  have hdec : fragsAll 0 bs = ([lbkC] ++ innerJoin bs) ++ sepS := by
    rw [fragsAll_decomp 0 bs h0]
    simp [List.append_assoc]
  have hlenA : ([lbkC] ++ innerJoin bs).length + 5 = (fragsAll 0 bs).length := by
    rw [hdec]
    have : sepS.length = 5 := by decide
    simp [List.length_append, this]
  have hfin : finalizeJVal (fragsAll 0 bs) =
      ([lbkC] ++ innerJoin bs) ++ [nlC, nlC, rbkC] := by
    rw [hdec]
    exact finalizeJVal_endsSep ([lbkC] ++ innerJoin bs) (by omega) (by omega)
  rw [hrj, hfin]
  rw [stripNl_append, stripNl_append]
  have hlb : stripNl [lbkC] = [lbkC] := by decide
  have hnn : stripNl [nlC, nlC, rbkC] = [rbkC] := by decide
  rw [hlb, hnn, stripNl_innerJoin bs h1 h0]
  simp [renderArray]

/-- Witness for C1 at the one-batch input. -/
theorem c1_witness :
    (([[objA]] : List (List JVal)) ≠ [] ∧ (∀ b ∈ ([[objA]] : List (List JVal)), b ≠ []) ∧
      (fragsAll 0 [[objA]]).length ≠ 48 ∧ (fragsAll 0 [[objA]]).length ≠ 49) ∧
    ((createMostVisitedJVal (batchResponses tokT [[objA]] []) initStitchSt).map
        (fun p => stripNl p.fst) = some (renderArray ([[objA]] : List (List JVal)).flatten) ∧
      ([[objA]] : List (List JVal)).flatten.length =
        (([[objA]] : List (List JVal)).map List.length).sum) := by
  have hA : ([[objA]] : List (List JVal)) ≠ [] := by simp
  have hB : ∀ b ∈ ([[objA]] : List (List JVal)), b ≠ [] := by
    intro b hb
    rw [List.mem_singleton] at hb
    subst hb
    simp
  have hC : (fragsAll 0 [[objA]]).length ≠ 48 := by decide
  have hD : (fragsAll 0 [[objA]]).length ≠ 49 := by decide
  exact ⟨ ⟨ hA, hB, hC, hD ⟩, c1_stitch_amended [[objA]] tokT [] hA hB hC hD ⟩

-- ===== Claim theorems: missing-marker handling (C7) =====

/--
Claim C7 as stated is false: a continuation-carrying response whose
body lacks the `"value":` marker is not rejected — `find` returns -1,
the slice `body[7:-1]` yields garbage, the garbage is spliced into the
buffer, the loop runs on to completion, and a corrupted file text is
written (no abort of any kind occurs).
-/
theorem c7_counterexample :
    createMostVisitedJVal [⟨ 200, some tokT, badBody7 ⟩, lastResp []] initStitchSt =
      some (corrupt7Out, ⟨ .str tokT, corrupt7Buf, 1, false ⟩) ∧
    (∀ (st : StitchSt),
        runLoop [⟨ 200, some tokT, badBody7 ⟩, lastResp []] initStitchSt ≠
          RunOutcome.authExit st) := by
  constructor
  · decide
  · have hrun : runLoop [⟨ 200, some tokT, badBody7 ⟩, lastResp []] initStitchSt =
        RunOutcome.finished ⟨ .str tokT, corrupt7Buf, 1, false ⟩ := by decide
    intro st
    rw [hrun]
    simp

/--
Claim C7 (amended): when the marker `"value":` is absent from a
continuation-carrying response body, the code does not abort with any
error: `find` returns -1, the extraction degenerates to the slice
`body[7:-1]`, the batch rules are applied to that garbage, the result
is appended to the buffer, and the loop simply continues with the
remaining responses.
-/
theorem c7_amended (st : StitchSt) (b tok : List Char) (rs : List HttpResp)
    (h : pyFindAux valueMarker b = none) :
    runLoop (⟨ 200, some tok, b ⟩ :: rs) st =
      runLoop rs
        ⟨ .str tok,
          st.result_json ++
            (if st.batch_number + 1 = 1 then
              pySliceUpto (pySliceFromDropLast b 7)
                  (((pySliceFromDropLast b 7).length : Int) - 1) ++ sepS
            else pySliceFromDropLast (pySliceFromDropLast b 7) 1 ++ sepS),
          st.batch_number + 1, true ⟩ := by
  have hchain : runLoop (⟨ 200, some tok, b ⟩ :: rs) st = runLoop rs (stepBatch st b tok) := by
    simp [runLoop]
  rw [hchain]
  congr 1
  have h7 : pyFind b valueMarker + (valueMarker.length : Int) = 7 := by
    have hf : pyFind b valueMarker = -1 := by simp [pyFind, h]
    rw [hf, valueMarker_len]
    norm_num
  simp only [stepBatch, h7]

/-- Witness for C7 at the concrete marker-less body. -/
theorem c7_witness :
    pyFindAux valueMarker badBody7 = none ∧
    runLoop (⟨ 200, some tokT, badBody7 ⟩ :: [lastResp []]) initStitchSt =
      runLoop [lastResp []]
        ⟨ .str tokT,
          initStitchSt.result_json ++
            (if initStitchSt.batch_number + 1 = 1 then
              pySliceUpto (pySliceFromDropLast badBody7 7)
                  (((pySliceFromDropLast badBody7 7).length : Int) - 1) ++ sepS
            else pySliceFromDropLast (pySliceFromDropLast badBody7 7) 1 ++ sepS),
          initStitchSt.batch_number + 1, true ⟩ :=
  ⟨ by decide, c7_amended initStitchSt badBody7 tokT [lastResp []] (by decide) ⟩

-- ===== Claim theorems: global-state reuse across calls (C10) =====

theorem flatten_ne_nil (bs : List (List JVal)) (h0 : bs ≠ []) (h1 : ∀ b ∈ bs, b ≠ []) :
    bs.flatten ≠ [] := by
  cases bs with
  | nil => exact absurd rfl h0
  | cons b rest =>
    have hb : b ≠ [] := h1 b (by simp)
    rw [List.flatten_cons]
    intro hx
    rcases List.append_eq_nil.mp hx with ⟨ hc, _ ⟩
    exact hb hc

theorem finalize_fragsAll_zero (bs : List (List JVal)) (h0 : bs ≠ [])
    (h48 : (fragsAll 0 bs).length ≠ 48) (h49 : (fragsAll 0 bs).length ≠ 49) :
    finalizeJVal (fragsAll 0 bs) = ([lbkC] ++ innerJoin bs) ++ [nlC, nlC, rbkC] := by
  have hdec : fragsAll 0 bs = ([lbkC] ++ innerJoin bs) ++ sepS := by
    rw [fragsAll_decomp 0 bs h0]
    simp [List.append_assoc]
  have hlenA : ([lbkC] ++ innerJoin bs).length + 5 = (fragsAll 0 bs).length := by
    rw [hdec]
    have hs : sepS.length = 5 := by decide
    simp [List.length_append, hs]
  rw [hdec]
  exact finalizeJVal_endsSep _ (by omega) (by omega)

theorem stripNl_bracketed (bs : List (List JVal)) (h0 : bs ≠ []) (h1 : ∀ b ∈ bs, b ≠ []) :
    stripNl (([lbkC] ++ innerJoin bs) ++ [nlC, nlC, rbkC]) = renderArray bs.flatten := by
  rw [stripNl_append, stripNl_append]
  have hlb : stripNl [lbkC] = [lbkC] := by decide
  have hnn : stripNl [nlC, nlC, rbkC] = [rbkC] := by decide
  rw [hlb, hnn, stripNl_innerJoin bs h1 h0]
  simp [renderArray]

/--
Claim C10: calling `create_most_visited_json` twice in one process
with identical responses does not write identical files — the
module-level globals are never reset, so the second call starts with
`batch_number = |bs| ≠ 0` (its first batch is spliced under the
non-first-batch rule, dropping the opening bracket) and with the first
call's entire stitched buffer still in `result_json`, which therefore
opens the second output; the second output parses as the elements
duplicated.
-/
theorem c10_global_state_reuse (bs : List (List JVal)) (t fin : List Char)
    (h0 : bs ≠ []) (h1 : ∀ b ∈ bs, b ≠ [])
    (h48 : (fragsAll 0 bs).length ≠ 48) (h49 : (fragsAll 0 bs).length ≠ 49)
    (g48 : (fragsAll 0 bs ++ fragsTail bs).length ≠ 48)
    (g49 : (fragsAll 0 bs ++ fragsTail bs).length ≠ 49) :
    ∃ out1 st1 out2 st2,
      createMostVisitedJVal (batchResponses t bs fin) initStitchSt = some (out1, st1) ∧
      createMostVisitedJVal (batchResponses t bs fin) st1 = some (out2, st2) ∧
      out1 ≠ out2 ∧
      (∃ tl, out2 = st1.result_json ++ tl) ∧
      st1.batch_number = bs.length ∧ st1.batch_number ≠ 0 ∧
      stripNl out1 = renderArray bs.flatten ∧
      stripNl out2 = renderArray (bs.flatten ++ bs.flatten) := by
  have hCM1 : createMostVisitedJVal (batchResponses t bs fin) initStitchSt =
      some (finalizeJVal (foldBatches t bs initStitchSt).result_json,
        ⟨ (foldBatches t bs initStitchSt).continuation_token,
          (foldBatches t bs initStitchSt).result_json,
          (foldBatches t bs initStitchSt).batch_number, false ⟩) := by
    simp only [createMostVisitedJVal]
    rw [runLoop_batches]
  have hrj1 : (foldBatches t bs initStitchSt).result_json = fragsAll 0 bs := by
    have h := (foldBatches_spec t bs initStitchSt).1
    simpa [initStitchSt] using h
  have hbn1 : (foldBatches t bs initStitchSt).batch_number = bs.length := by
    have h := (foldBatches_spec t bs initStitchSt).2
    simpa [initStitchSt] using h
  have hlenpos : bs.length ≠ 0 := by
    cases bs with
    | nil => exact absurd rfl h0
    | cons b r => simp
  have hCM2 : createMostVisitedJVal (batchResponses t bs fin)
      ⟨ (foldBatches t bs initStitchSt).continuation_token, fragsAll 0 bs,
        bs.length, false ⟩ =
      some (finalizeJVal (foldBatches t bs
          ⟨ (foldBatches t bs initStitchSt).continuation_token, fragsAll 0 bs,
            bs.length, false ⟩).result_json,
        ⟨ (foldBatches t bs
            ⟨ (foldBatches t bs initStitchSt).continuation_token, fragsAll 0 bs,
              bs.length, false ⟩).continuation_token,
          (foldBatches t bs
            ⟨ (foldBatches t bs initStitchSt).continuation_token, fragsAll 0 bs,
              bs.length, false ⟩).result_json,
          (foldBatches t bs
            ⟨ (foldBatches t bs initStitchSt).continuation_token, fragsAll 0 bs,
              bs.length, false ⟩).batch_number, false ⟩) := by
    simp only [createMostVisitedJVal]
    rw [runLoop_batches]
  have hst1 : (⟨ (foldBatches t bs initStitchSt).continuation_token,
      (foldBatches t bs initStitchSt).result_json,
      (foldBatches t bs initStitchSt).batch_number, false ⟩ : StitchSt) =
      ⟨ (foldBatches t bs initStitchSt).continuation_token, fragsAll 0 bs,
        bs.length, false ⟩ := by
    rw [hrj1, hbn1]
  have hrj2 : (foldBatches t bs
      ⟨ (foldBatches t bs initStitchSt).continuation_token, fragsAll 0 bs,
        bs.length, false ⟩).result_json = fragsAll 0 bs ++ fragsTail bs := by
    have h := (foldBatches_spec t bs
      ⟨ (foldBatches t bs initStitchSt).continuation_token, fragsAll 0 bs,
        bs.length, false ⟩).1
    rw [h]
    show fragsAll 0 bs ++ fragsAll bs.length bs = fragsAll 0 bs ++ fragsTail bs
    rw [fragsAll_pos bs.length bs hlenpos]
  have hdec1 : fragsAll 0 bs = ([lbkC] ++ innerJoin bs) ++ sepS := by
    rw [fragsAll_decomp 0 bs h0]
    simp [List.append_assoc]
  have hout1 : finalizeJVal (foldBatches t bs initStitchSt).result_json =
      ([lbkC] ++ innerJoin bs) ++ [nlC, nlC, rbkC] := by
    rw [hrj1]
    exact finalize_fragsAll_zero bs h0 h48 h49
  have htail : fragsTail bs = innerJoin bs ++ sepS := fragsTail_decomp bs h0
  have hbuf2 : fragsAll 0 bs ++ fragsTail bs = ((fragsAll 0 bs) ++ innerJoin bs) ++ sepS := by
    rw [htail]
    simp [List.append_assoc]
  have hlen2 : ((fragsAll 0 bs) ++ innerJoin bs).length + 5 =
      (fragsAll 0 bs ++ fragsTail bs).length := by
    rw [hbuf2]
    have hs : sepS.length = 5 := by decide
    simp only [List.length_append, hs]
  have hout2 : finalizeJVal (foldBatches t bs
      ⟨ (foldBatches t bs initStitchSt).continuation_token, fragsAll 0 bs,
        bs.length, false ⟩).result_json =
      ((fragsAll 0 bs) ++ innerJoin bs) ++ [nlC, nlC, rbkC] := by
    rw [hrj2, hbuf2]
    exact finalizeJVal_endsSep _ (by omega) (by omega)
  rw [hst1] at hCM1
  refine ⟨ _, _, _, _, hCM1, hCM2, ?_, ?_, ?_, ?_, ?_, ?_ ⟩
  · rw [hout1, hout2]
    intro he
    have hle := congrArg List.length he
    have hFA : (fragsAll 0 bs).length = (innerJoin bs).length + 6 := by
      rw [hdec1]
      have hs : sepS.length = 5 := by decide
      simp only [List.length_append, List.length_cons, List.length_nil, hs]
      omega
    simp only [List.length_append, List.length_cons, List.length_nil, hFA] at hle
    omega
  · refine ⟨ innerJoin bs ++ [nlC, nlC, rbkC], ?_ ⟩
    rw [hout2]
    show ((fragsAll 0 bs) ++ innerJoin bs) ++ [nlC, nlC, rbkC] =
      fragsAll 0 bs ++ (innerJoin bs ++ [nlC, nlC, rbkC])
    simp [List.append_assoc]
  · rfl
  · exact hlenpos
  · rw [hout1]
    exact stripNl_bracketed bs h0 h1
  · rw [hout2, hdec1]
    rw [stripNl_append, stripNl_append, stripNl_append, stripNl_append]
    have hF := flatten_ne_nil bs h0 h1
    have hlb : stripNl [lbkC] = [lbkC] := by decide
    have hnn : stripNl [nlC, nlC, rbkC] = [rbkC] := by decide
    rw [stripNl_sepS, stripNl_innerJoin bs h1 h0, hlb, hnn, renderArray,
      renderList_append bs.flatten bs.flatten hF hF]
    simp [List.append_assoc]

/-- Witness for C10 at the one-batch input. -/
theorem c10_witness :
    (([[objB]] : List (List JVal)) ≠ [] ∧ (∀ b ∈ ([[objB]] : List (List JVal)), b ≠ []) ∧
      (fragsAll 0 [[objB]]).length ≠ 48 ∧ (fragsAll 0 [[objB]]).length ≠ 49 ∧
      (fragsAll 0 [[objB]] ++ fragsTail [[objB]]).length ≠ 48 ∧
      (fragsAll 0 [[objB]] ++ fragsTail [[objB]]).length ≠ 49) ∧
    (∃ out1 st1 out2 st2,
      createMostVisitedJVal (batchResponses tokT [[objB]] []) initStitchSt =
        some (out1, st1) ∧
      createMostVisitedJVal (batchResponses tokT [[objB]] []) st1 = some (out2, st2) ∧
      out1 ≠ out2 ∧
      (∃ tl, out2 = st1.result_json ++ tl) ∧
      st1.batch_number = ([[objB]] : List (List JVal)).length ∧ st1.batch_number ≠ 0 ∧
      stripNl out1 = renderArray ([[objB]] : List (List JVal)).flatten ∧
      stripNl out2 = renderArray (([[objB]] : List (List JVal)).flatten ++
        ([[objB]] : List (List JVal)).flatten)) := by
  have hA : ([[objB]] : List (List JVal)) ≠ [] := by simp
  have hB : ∀ b ∈ ([[objB]] : List (List JVal)), b ≠ [] := by
    intro b hb
    rw [List.mem_singleton] at hb
    subst hb
    simp
  have hC : (fragsAll 0 [[objB]]).length ≠ 48 := by decide
  have hD : (fragsAll 0 [[objB]]).length ≠ 49 := by decide
  have hE : (fragsAll 0 [[objB]] ++ fragsTail [[objB]]).length ≠ 48 := by decide
  have hF : (fragsAll 0 [[objB]] ++ fragsTail [[objB]]).length ≠ 49 := by decide
  exact ⟨ ⟨ hA, hB, hC, hD, hE, hF ⟩,
    c10_global_state_reuse [[objB]] tokT [] hA hB hC hD hE hF ⟩
